import Mathlib

/-!
Verification of the hover/edit coordination engine of the table-inline-edit
directives, together with the coalesced style scheduler.

The reactive pipelines are embedded shallowly: an rxjs observable is the list
of values it emits over a subscription, and the time-sensitive `audit`
operator of `hoveringOnRow` is given an explicit small-step machine over
timestamped events.  DOM elements are modelled by the chain of nodes from the
element up to the root (`closest` becomes a search along that chain), with a
numeric id standing for reference identity.
-/

/-- One DOM node: whether it is an `Element`, its reference identity, and its
class list.  Two nodes are "the same node" exactly when the records coincide
(ids are chosen distinct for distinct nodes). -/
structure NodeInfo where
  isElement : Bool
  nodeId : Nat
  classes : List String
deriving DecidableEq

/-- A DOM position, given as the chain of nodes from the node itself
(first entry) up through its ancestors (`parentNode` links). -/
abbrev DomChain := List NodeInfo

/-- The class used to locate the enclosing cell (`closest(element, 'cdk-cell')`). -/
def cellClass : String := "cdk-cell"

/-- The class used to locate the enclosing row (`closest(element, 'cdk-row')`). -/
def rowClass : String := "cdk-row"

/-- The class of the overlay pane, used by the document-click handler. -/
def paneClass : String := "cdk-overlay-pane"

/-- Embedding of `closest(element, className)`: starting from the node itself,
walk `parentNode` links until a node is an `Element` whose class list contains
`className`; return `null` (`none`) when the walk exhausts the chain or the
input is not a node. -/
def closest (element : Option DomChain) (className : String) : Option NodeInfo :=
  match element with
  | none => none
  | some chain => chain.find? (fun n => n.isElement && decide (className ∈ n.classes))

/-- Embedding of the rxjs `distinctUntilChanged` operator: `last` is the most
recently forwarded value (`none` before any), and a value is forwarded exactly
when it differs from the last forwarded one. -/
def distinctFrom {α : Type} [DecidableEq α] : Option α → List α → List α
  | _, [] => []
  | last, x :: xs =>
    if last = some x then distinctFrom last xs else x :: distinctFrom (some x) xs

/-- Last value of a list of emissions, with an explicit fallback for the empty
list; this is the "current value" of a stream after the emissions `xs`. -/
def lastSeen {α : Type} : Option α → List α → Option α
  | last, [] => last
  | _, x :: xs => lastSeen (some x) xs

/-- Embedding of `InlineEditEvents.editingCell(element)`: the `editing` stream
(inputs `ins`, each the currently edited cell or `null`) is mapped to whether
the emitted value is reference-equal to the element's enclosing cell as found
by `closest(element, 'cdk-cell')` (the source memoizes that lookup; on an
immutable tree memoization is transparent), followed by `distinctUntilChanged`. -/
def editingCellList (element : DomChain) (ins : List (Option NodeInfo)) : List Bool :=
  distinctFrom none (ins.map (fun v => decide (v = closest (some element) cellClass)))

/-- Embedding of the `currentlyEditing` field: starts `null` and is overwritten
by every emission of the `editing` stream (the constructor subscription). -/
def currentlyEditing (ins : List (Option NodeInfo)) : Option NodeInfo :=
  ins.foldl (fun _ v => v) none

/-- Embedding of `InlineEditEvents.doneEditingCell(element)`: emit `null` on
the `editing` stream exactly when `currentlyEditing` is reference-equal to the
element's enclosing cell; the result is the new emission history of `editing`. -/
def doneEditingCell (element : DomChain) (ins : List (Option NodeInfo)) :
    List (Option NodeInfo) :=
  if currentlyEditing ins = closest (some element) cellClass then ins ++ [none] else ins

/-- The debounce/audit delay used by the hover pipelines (`HOVER_DELAY_MS`). -/
def HOVER_DELAY_MS : Nat := 30

/-- The map stage of `hoveringOnRow`: whether a value emitted on the
`hovering` stream is reference-equal to the pipeline's (memoized) row. -/
def hoverMatch (row : Option NodeInfo) (v : Option NodeInfo) : Bool :=
  decide (v = row)

/-- Timestamped input event for a `hoveringOnRow` pipeline: an emission of the
`hovering` subject or of the `mouseMove` subject, at a time in ms. -/
inductive HoverEvent where
  | hover (t : Nat) (v : Option NodeInfo)
  | move (t : Nat) (v : Option NodeInfo)
deriving DecidableEq

/-- Time of a hover-pipeline input event. -/
def HoverEvent.time : HoverEvent → Nat
  | .hover t _ => t
  | .move t _ => t

/-- State of the `audit` operator's silencing window inside `hoveringOnRow`:
no window, a window whose duration is `mouseMove.pipe(filter(=== row))`
(opened by a `true`), or a window whose duration is `timer(HOVER_DELAY_MS)`
(opened by a `false`), each tracking the latest source value. -/
inductive AuditWindow where
  | closed
  | waitMove (latest : Bool)
  | waitTimer (latest : Bool) (deadline : Nat)
deriving DecidableEq

/-- The latest buffered source value of an open audit window, if any. -/
def windowLatest : AuditWindow → Option Bool
  | .closed => none
  | .waitMove l => some l
  | .waitTimer l _ => some l

/-- State of one `hoveringOnRow` pipeline: the `distinctUntilChanged` state on
the incoming `hovering` stream (used by the variant that pipes from
`hoveringDistinct`), the audit window, the trailing `distinctUntilChanged`
state, and the timestamped emissions so far. -/
structure HoverPipe where
  lastHover : Option (Option NodeInfo)
  window : AuditWindow
  lastOut : Option Bool
  out : List (Nat × Bool)
deriving DecidableEq

/-- Initial state of a `hoveringOnRow` pipeline at subscription time. -/
def initHoverPipe : HoverPipe := ⟨none, AuditWindow.closed, none, []⟩

/-- Push a value through the trailing `distinctUntilChanged` at time `t`. -/
def emitDistinct (t : Nat) (b : Bool) (s : HoverPipe) : HoverPipe :=
  if s.lastOut = some b then s
  else { s with lastOut := some b, out := s.out ++ [(t, b)] }

/-- Fire a pending `timer(HOVER_DELAY_MS)` audit window whose deadline has
been reached by time `t`: the window closes and emits its latest value. -/
def fireTimerIfDue (t : Nat) (s : HoverPipe) : HoverPipe :=
  match s.window with
  | .waitTimer latest deadline =>
      if deadline ≤ t then
        emitDistinct deadline latest { s with window := AuditWindow.closed }
      else s
  | _ => s

/-- The `audit` operator receiving a mapped source value `b` at time `t`: with
no window open, open one whose duration is chosen by `b` (`mouseMove` filtered
to the row for `true`, `timer(HOVER_DELAY_MS)` for `false`); with a window
open, only update the buffered latest value. -/
def auditSource (t : Nat) (b : Bool) (s : HoverPipe) : HoverPipe :=
  match s.window with
  | .closed =>
      if b then { s with window := AuditWindow.waitMove b }
      else { s with window := AuditWindow.waitTimer b (t + HOVER_DELAY_MS) }
  | .waitMove _ => { s with window := AuditWindow.waitMove b }
  | .waitTimer _ d => { s with window := AuditWindow.waitTimer b d }

/-- One step of the `hoveringOnRow` pipeline for the row `row`.  A due timer
fires first.  A `hovering` emission `v` (deduplicated first when the pipeline
reads `hoveringDistinct`, i.e. `useDistinct` is set) feeds `hoverMatch row v`
into the audit stage.  A `mouseMove` emission closes a `waitMove` window when
it is reference-equal to the row (the `filter(hoveredRow === row)` duration). -/
def stepHover (useDistinct : Bool) (row : Option NodeInfo) (s : HoverPipe)
    (e : HoverEvent) : HoverPipe :=
  let s1 := fireTimerIfDue e.time s
  match e with
  | .hover t v =>
      if useDistinct && decide (s1.lastHover = some v) then s1
      else auditSource t (hoverMatch row v) { s1 with lastHover := some v }
  | .move t v =>
      match s1.window with
      | .waitMove latest =>
          if hoverMatch row v then
            emitDistinct t latest { s1 with window := AuditWindow.closed }
          else s1
      | _ => s1

/-- Fire the pending timer window, if any, once all input events have been
processed (the timer's emission is not blocked by anything). -/
def flushHover (s : HoverPipe) : HoverPipe :=
  match s.window with
  | .waitTimer latest deadline =>
      emitDistinct deadline latest { s with window := AuditWindow.closed }
  | _ => s

/-- Run a `hoveringOnRow` pipeline over a timeline of events.  `useDistinct`
selects the variant that pipes from `hoveringDistinct` rather than from the
raw `hovering` subject. -/
def runHover (useDistinct : Bool) (row : Option NodeInfo)
    (evs : List HoverEvent) : HoverPipe :=
  flushHover (evs.foldl (stepHover useDistinct row) initHoverPipe)

/-- The values emitted on the `hovering` subject within a timeline. -/
def hoverValues (evs : List HoverEvent) : List (Option NodeInfo) :=
  evs.filterMap (fun e => match e with
    | .hover _ v => some v
    | .move _ _ => none)

/-- The trailing `filter((hovering, index) => hovering || index > 1)` of the
later `hoveringOnRow` variant, with `i` the index of the next arriving value. -/
def hoverIndexFilter (i : Nat) : List (Nat × Bool) → List (Nat × Bool)
  | [] => []
  | p :: rest =>
      if p.2 || decide (i > 1) then p :: hoverIndexFilter (i + 1) rest
      else hoverIndexFilter (i + 1) rest

/-- The later `hoveringOnRow` variant: the audited, deduplicated stream (from
the raw `hovering` subject) followed by the index-based filter. -/
def hoveringOnRowLater (row : Option NodeInfo) (evs : List HoverEvent) :
    List (Nat × Bool) :=
  hoverIndexFilter 0 (runHover false row evs).out

/-- The stream's current value at time `t`: the last emission at or before `t`. -/
def valueAt (t : Nat) (out : List (Nat × Bool)) : Option Bool :=
  lastSeen none ((out.filter (fun p => decide (p.1 ≤ t))).map (fun p => p.2))

/-- Observable state of one `CdkTableInlineEdit` directive: how many overlays
and focus traps it has constructed, and whether the portal is attached. -/
structure EditDirState where
  overlayCount : Nat
  focusTrapCount : Nat
  attached : Bool
deriving DecidableEq

/-- Directive state before any emission of `editingCell`. -/
def initEditDir : EditDirState := ⟨0, 0, false⟩

/-- Embedding of the `editingCell` subscription body of
`CdkTableInlineEdit.ngAfterViewInit`: on `true` with a template configured,
construct overlay, focus trap and portal only when no overlay exists yet, then
attach; on `false` (or `true` without template) detach when an overlay exists. -/
def stepEditDir (hasTemplate : Bool) (s : EditDirState) (isOpen : Bool) : EditDirState :=
  if isOpen && hasTemplate then
    let s1 :=
      if s.overlayCount = 0 then
        { s with overlayCount := s.overlayCount + 1, focusTrapCount := s.focusTrapCount + 1 }
      else s
    { s1 with attached := true }
  else if s.overlayCount ≠ 0 then
    { s with attached := false }
  else s

/-- Run one `CdkTableInlineEdit` directive over the booleans emitted by its
`editingCell` subscription. -/
def runEditDir (hasTemplate : Bool) (ins : List Bool) : EditDirState :=
  ins.foldl (stepEditDir hasTemplate) initEditDir

/-- Form-control state for the edit overlay: the form's current value, whether
the one-shot `first()` snapshot subscription has fired, the revert snapshot,
and the emissions made on the shared `editing` stream. -/
structure FormModel where
  formValue : Option Nat
  revertTaken : Bool
  revertFormValue : Option Nat
  editingLog : List (Option NodeInfo)
deriving DecidableEq

/-- Embedding of `InlineEditRef.updateRevertValue`: snapshot the form's
current value. -/
def updateRevertValue (s : FormModel) : FormModel :=
  { s with revertFormValue := s.formValue }

/-- Embedding of `InlineEditRef.close(preserveFormValues)`: emit `null` on the
shared `editing` stream; the argument is ignored by the source. -/
def closeEdit (_preserveFormValues : Bool) (s : FormModel) : FormModel :=
  { s with editingLog := s.editingLog ++ [none] }

/-- Embedding of `InlineEditRef.reset()`: `this._form.reset(revert snapshot)`. -/
def resetForm (s : FormModel) : FormModel :=
  { s with formValue := s.revertFormValue }

/-- Embedding of `CdkTableInlineEditControl.onEscape`: `close(true)`. -/
def onEscapeControl (s : FormModel) : FormModel := closeEdit true s

/-- Events acting on the edit form: a form value change (the `valueChanges`
stream), an Escape key-up, a revert-button `reset()`. -/
inductive FormEvent where
  | valueChange (v : Option Nat)
  | escape
  | reset
deriving DecidableEq

/-- One step of the form control.  On a value change the form's value updates
first; the `valueChanges.pipe(first())` subscription then takes the revert
snapshot exactly once, reading the already-updated form value. -/
def stepForm (s : FormModel) : FormEvent → FormModel
  | .valueChange v =>
      let s1 := { s with formValue := v }
      if s1.revertTaken then s1 else updateRevertValue { s1 with revertTaken := true }
  | .escape => onEscapeControl s
  | .reset => resetForm s

/-- Run the form control over a list of events. -/
def runForm (s : FormModel) (evs : List FormEvent) : FormModel :=
  evs.foldl stepForm s

/-- Click-out policy of `CdkTableInlineEditControl` (`clickOutBehavior`). -/
inductive ClickOutBehavior where
  | close
  | submit
  | nothing
deriving DecidableEq

/-- Embedding of `CdkTableInlineEditControl.onDocumentClick`, as the emissions
it causes on the shared `editing` stream: nothing when the click target is
inside the overlay pane; otherwise, per policy, `submit` dispatches the form's
submit (whose `onSubmit` closes, emitting `null`) and then calls `close()`
(another `null`); `close` calls `close(true)` (one `null`); `nothing` does
nothing. -/
def onDocumentClick (behavior : ClickOutBehavior) (target : Option DomChain) :
    List (Option NodeInfo) :=
  if (closest target paneClass).isSome then []
  else
    match behavior with
    | .submit => [none, none]
    | .close => [none]
    | .nothing => []

/-- Result of the open control's click handler: emissions on the `editing`
stream and whether propagation of the triggering event was stopped. -/
structure ClickResult where
  emissions : List (Option NodeInfo)
  stopped : Bool
deriving DecidableEq

/-- Embedding of `CdkTableInlineEditOpen.openInlineEdit(evt)`: push the
control's enclosing `cdk-cell` element onto the `editing` stream and call
`evt.stopPropagation()`. -/
def openInlineEdit (element : DomChain) : ClickResult :=
  ⟨[closest (some element) cellClass], true⟩

/-- A click on the open control, propagated through the DOM: the control's
handler runs at the target; the document-level click-out handler then runs
only if propagation was not stopped.  The result is the sequence of emissions
on the `editing` stream caused by the click. -/
def dispatchOpenClick (element : DomChain) (behavior : ClickOutBehavior)
    (target : Option DomChain) : List (Option NodeInfo) :=
  let r := openInlineEdit element
  r.emissions ++ (if r.stopped then [] else onDocumentClick behavior target)

/-- State of the `CoalescedStyleScheduler`: the current schedule observable
(by id), a counter of schedules ever created, the pending microtask queue (the
callbacks registered on the resolved promise), and the tasks already executed. -/
structure SchedulerState where
  currentSchedule : Option Nat
  nextScheduleId : Nat
  microtasks : List Nat
  executed : List Nat
deriving DecidableEq

/-- Scheduler state at construction. -/
def initScheduler : SchedulerState := ⟨none, 0, [], []⟩

/-- Embedding of `CoalescedStyleScheduler._createScheduleIfNeeded`: a no-op
when a schedule exists; otherwise the promise executor runs synchronously
(setting `_currentSchedule` to `null` and resolving), after which the `from`
observable is assigned to `_currentSchedule`. -/
def createScheduleIfNeeded (s : SchedulerState) : SchedulerState :=
  if s.currentSchedule.isSome then s
  else
    let s1 := { s with currentSchedule := none }
    { s1 with
        currentSchedule := some s1.nextScheduleId
        nextScheduleId := s1.nextScheduleId + 1 }

/-- Embedding of `CoalescedStyleScheduler.schedule(task)`: ensure a schedule
exists, then subscribe the task to it.  The underlying promise is already
resolved, so the subscription enqueues the task as a microtask; nothing runs
synchronously. -/
def scheduleTask (task : Nat) (s : SchedulerState) : SchedulerState :=
  let s1 := createScheduleIfNeeded s
  { s1 with microtasks := s1.microtasks ++ [task] }

/-- The event loop draining the microtask queue: the queued tasks execute in
FIFO order. -/
def drainMicrotasks (s : SchedulerState) : SchedulerState :=
  { s with executed := s.executed ++ s.microtasks, microtasks := [] }

/-- Interleaving of `schedule` calls and microtask-queue drains. -/
inductive SchedulerOp where
  | schedule (task : Nat)
  | drain
deriving DecidableEq

/-- Apply one scheduler operation. -/
def stepScheduler (s : SchedulerState) : SchedulerOp → SchedulerState
  | .schedule t => scheduleTask t s
  | .drain => drainMicrotasks s

/-- Run the scheduler from construction over a list of operations. -/
def runScheduler (ops : List SchedulerOp) : SchedulerState :=
  ops.foldl stepScheduler initScheduler

/-- The tasks passed to `schedule`, in call order. -/
def scheduledTasks (ops : List SchedulerOp) : List Nat :=
  ops.filterMap (fun op => match op with
    | .schedule t => some t
    | .drain => none)

/-- Concrete row element A (`class="cdk-row"`). -/
def rowAW : NodeInfo := ⟨true, 1, ["cdk-row"]⟩

/-- Concrete row element B (`class="cdk-row"`). -/
def rowBW : NodeInfo := ⟨true, 2, ["cdk-row"]⟩

/-- Concrete cell element A (`class="cdk-cell"`). -/
def cellAW : NodeInfo := ⟨true, 21, ["cdk-cell"]⟩

/-- Concrete cell element B (`class="cdk-cell"`). -/
def cellBW : NodeInfo := ⟨true, 22, ["cdk-cell"]⟩

/-- A concrete element inside row A. -/
def e1W : DomChain := [⟨true, 11, []⟩, rowAW]

/-- A concrete element inside row B. -/
def e2W : DomChain := [⟨true, 12, []⟩, rowBW]

/-- A concrete element inside cell A. -/
def eInCellAW : DomChain := [⟨true, 31, []⟩, cellAW]

/-- A concrete element inside cell B. -/
def eInCellBW : DomChain := [⟨true, 32, []⟩, cellBW]

/-- A concrete element enclosed in neither a row nor a cell. -/
def eFreeW : DomChain := [⟨true, 7, []⟩]

/-- Hover timeline: enter row A at 0ms, mouse-move over row A at 5ms, enter
row B at 10ms. -/
def evs4W : List HoverEvent :=
  [HoverEvent.hover 0 (some rowAW), HoverEvent.move 5 (some rowAW),
    HoverEvent.hover 10 (some rowBW)]

/-- Hover timeline: enter row A at 0ms, mouse-move over row A at 3ms, leave
all rows at 10ms. -/
def evs8W : List HoverEvent :=
  [HoverEvent.hover 0 (some rowAW), HoverEvent.move 3 (some rowAW),
    HoverEvent.hover 10 none]

/-! ### Lemmas about the stream operators -/

theorem lastSeen_append_singleton {α : Type} (o : Option α) (xs : List α) (a : α) :
    lastSeen o (xs ++ [a]) = some a := by
  induction xs generalizing o with
  | nil => rfl
  | cons x xs ih => simpa [lastSeen] using ih (some x)

theorem lastSeen_isSome {α : Type} (a : α) (xs : List α) :
    (lastSeen (some a) xs).isSome = true := by
  induction xs generalizing a with
  | nil => rfl
  | cons x xs ih => simpa [lastSeen] using ih x

theorem lastSeen_map {α β : Type} (f : α → β) (o : Option α) (xs : List α) :
    lastSeen (o.map f) (xs.map f) = (lastSeen o xs).map f := by
  induction xs generalizing o with
  | nil => rfl
  | cons x xs ih => simpa [lastSeen] using ih (some x)

theorem distinctFrom_append_singleton {α : Type} [DecidableEq α]
    (last : Option α) (xs : List α) (a : α) :
    distinctFrom last (xs ++ [a]) =
      distinctFrom last xs ++ (if lastSeen last xs = some a then [] else [a]) := by
  induction xs generalizing last with
  | nil => simp [distinctFrom, lastSeen]
  | cons x xs ih =>
    by_cases h : last = some x
    · subst h
      simp only [List.cons_append, distinctFrom, if_pos rfl, lastSeen]
      exact ih (some x)
    · simp only [List.cons_append, distinctFrom, if_neg h, lastSeen]
      rw [show xs.append [a] = xs ++ [a] from rfl, ih (some x)]

theorem lastSeen_distinctFrom {α : Type} [DecidableEq α] (last : Option α) (xs : List α) :
    lastSeen last (distinctFrom last xs) = lastSeen last xs := by
  induction xs generalizing last with
  | nil => rfl
  | cons x xs ih =>
    by_cases h : last = some x
    · subst h
      simpa [distinctFrom, lastSeen] using ih (some x)
    · simpa [distinctFrom, if_neg h, lastSeen] using ih (some x)

theorem distinctFrom_sublist {α : Type} [DecidableEq α] (last : Option α) (xs : List α) :
    (distinctFrom last xs).Sublist xs := by
  induction xs generalizing last with
  | nil => simp [distinctFrom]
  | cons x xs ih =>
    by_cases h : last = some x
    · exact (by simpa [distinctFrom, h] using ih last :
        (distinctFrom last (x :: xs)).Sublist xs).trans (List.sublist_cons_self x xs)
    · simpa [distinctFrom, if_neg h] using (ih (some x)).cons₂ x

theorem distinctFrom_chain {α : Type} [DecidableEq α] (last : Option α) (xs : List α) :
    List.Chain' (fun a b => a ≠ b) (distinctFrom last xs) ∧
      ∀ y ∈ (distinctFrom last xs).head?, last ≠ some y := by
  induction xs generalizing last with
  | nil => simp [distinctFrom]
  | cons x xs ih =>
    by_cases h : last = some x
    · simpa [distinctFrom, h] using ih last
    · have ihx := ih (some x)
      refine ⟨?_, ?_⟩
      · simp only [distinctFrom, if_neg h]
        rw [List.chain'_cons']
        refine ⟨?_, ihx.1⟩
        intro y hy
        have := ihx.2 y hy
        intro hxy
        exact this (by rw [hxy])
      · intro y hy
        simp only [distinctFrom, if_neg h, List.head?_cons, Option.mem_def,
          Option.some.injEq] at hy
        subst hy
        exact h

theorem editingCellList_append (e : DomChain) (ins : List (Option NodeInfo))
    (v : Option NodeInfo) :
    editingCellList e (ins ++ [v]) =
      editingCellList e ins ++
        (if lastSeen none (ins.map (fun w => decide (w = closest (some e) cellClass))) =
            some (decide (v = closest (some e) cellClass))
          then [] else [decide (v = closest (some e) cellClass)]) := by
  unfold editingCellList
  rw [List.map_append, List.map_singleton, distinctFrom_append_singleton]

theorem editingCellList_append_of_ne (e : DomChain) (ins : List (Option NodeInfo))
    (w v : Option NodeInfo)
    (h : decide (w = closest (some e) cellClass) ≠ decide (v = closest (some e) cellClass)) :
    editingCellList e ((ins ++ [w]) ++ [v]) =
      editingCellList e (ins ++ [w]) ++ [decide (v = closest (some e) cellClass)] := by
  rw [editingCellList_append]
  have hlast : lastSeen none
      ((ins ++ [w]).map (fun u => decide (u = closest (some e) cellClass))) =
      some (decide (w = closest (some e) cellClass)) := by
    rw [List.map_append, List.map_singleton, lastSeen_append_singleton]
  rw [hlast, if_neg (fun hc => h (Option.some.injEq _ _ ▸ hc))]

/-- Claim C1: the shared `editing` stream carries a single Element-or-null
value, so at most one cell is the editing target at a time; emitting a new
cell `c2` while `c1` is the target appends `false` to `editingCell` of an
element of `c1` and `true` to `editingCell` of an element of `c2`, and for
elements of distinct cells the two derived streams never both read `true`. -/
theorem editing_single_target (e1 e2 : DomChain) (c1 c2 : Option NodeInfo)
    (h1 : closest (some e1) cellClass = c1) (h2 : closest (some e2) cellClass = c2)
    (hne : c1 ≠ c2) (ins : List (Option NodeInfo)) :
    editingCellList e1 (ins ++ [c1, c2]) = editingCellList e1 (ins ++ [c1]) ++ [false]
    ∧ editingCellList e2 (ins ++ [c1, c2]) = editingCellList e2 (ins ++ [c1]) ++ [true]
    ∧ currentlyEditing (ins ++ [c1, c2]) = c2
    ∧ ∀ ins2 : List (Option NodeInfo), ins2 ≠ [] →
        ¬(lastSeen none (editingCellList e1 ins2) = some true ∧
          lastSeen none (editingCellList e2 ins2) = some true) := by
  have hsplit : ins ++ [c1, c2] = (ins ++ [c1]) ++ [c2] := by simp
  have hd1c1 : decide (c1 = closest (some e1) cellClass) = true := by
    rw [h1]; exact decide_eq_true rfl
  have hd1c2 : decide (c2 = closest (some e1) cellClass) = false := by
    rw [h1]; exact decide_eq_false (fun hc => hne hc.symm)
  have hd2c1 : decide (c1 = closest (some e2) cellClass) = false := by
    rw [h2]; exact decide_eq_false hne
  have hd2c2 : decide (c2 = closest (some e2) cellClass) = true := by
    rw [h2]; exact decide_eq_true rfl
  refine ⟨?_, ?_, ?_, ?_⟩
  · rw [hsplit, editingCellList_append_of_ne e1 ins c1 c2 (by rw [hd1c1, hd1c2]; simp),
      hd1c2]
  · rw [hsplit, editingCellList_append_of_ne e2 ins c1 c2 (by rw [hd2c1, hd2c2]; simp),
      hd2c2]
  · simp [currentlyEditing, List.foldl_append]
  · rintro ins2 hne2 ⟨ha, hb⟩
    have hmap : ∀ (e : DomChain),
        lastSeen none (editingCellList e ins2) = some true →
          ∃ v : Option NodeInfo, lastSeen none ins2 = some v ∧
            decide (v = closest (some e) cellClass) = true := by
      intro e hle
      rw [editingCellList, lastSeen_distinctFrom] at hle
      have hmaps := lastSeen_map (fun w => decide (w = closest (some e) cellClass))
        none ins2
      simp only [Option.map_none'] at hmaps
      rw [hmaps] at hle
      rcases Option.map_eq_some'.mp hle with ⟨v, hv, hfv⟩
      exact ⟨v, hv, hfv⟩
    rcases hmap e1 ha with ⟨v, hv, hfv1⟩
    rcases hmap e2 hb with ⟨v2, hv2, hfv2⟩
    have hvc1 : v = c1 := by rw [h1] at hfv1; exact of_decide_eq_true hfv1
    have hvc2 : v2 = c2 := by rw [h2] at hfv2; exact of_decide_eq_true hfv2
    exact hne (hvc1.symm.trans ((Option.some.inj (hv.symm.trans hv2)).trans hvc2))

/-- Claim C1 witness: with two concrete cells, emitting cell B while cell A is
the target appends `true` to `editingCell` of an element inside cell B. -/
theorem editing_single_target_witness :
    editingCellList eInCellBW [some cellAW, some cellBW] =
      editingCellList eInCellBW [some cellAW] ++ [true] :=
  (editing_single_target eInCellAW eInCellBW (some cellAW) (some cellBW)
    (by decide) (by decide) (by decide) []).2.1

/-- Claim C2: `editingCell(element)` maps every emission of the `editing`
stream to whether it is reference-equal to the element's enclosing `cdk-cell`
(ancestor lookup) and deduplicates: the delivered stream never repeats a
boolean consecutively, it is a subsequence of the per-emission match
indicators, and whenever a new `editing` emission changes the delivered
stream, the delivered value is exactly the match indicator of that emission. -/
theorem editingCell_spec (e : DomChain) (ins : List (Option NodeInfo)) :
    List.Chain' (fun a b => a ≠ b) (editingCellList e ins)
    ∧ (editingCellList e ins).Sublist
        (ins.map (fun v => decide (v = closest (some e) cellClass)))
    ∧ ∀ v : Option NodeInfo,
        editingCellList e (ins ++ [v]) ≠ editingCellList e ins →
          (editingCellList e (ins ++ [v])).getLast? =
            some (decide (v = closest (some e) cellClass)) := by
  refine ⟨(distinctFrom_chain none _).1, distinctFrom_sublist none _, ?_⟩
  intro v hne
  rw [editingCellList_append] at hne ⊢
  by_cases hc : lastSeen none (ins.map (fun w => decide (w = closest (some e) cellClass))) =
      some (decide (v = closest (some e) cellClass))
  · rw [if_pos hc] at hne
    simp at hne
  · rw [if_neg hc, List.getLast?_concat]

/-- Claim C2 witness: on a fresh subscription, emitting cell A makes
`editingCell` of an element inside cell A deliver `true`. -/
theorem editingCell_spec_witness :
    (editingCellList eInCellAW [some cellAW]).getLast? = some true := by
  have h := (editingCell_spec eInCellAW []).2.2 (some cellAW) (by decide)
  exact h.trans (by decide)

/-- Claim C5: `doneEditingCell(element)` emits `null` on the `editing` stream
exactly when the current editing target is reference-equal to the element's
enclosing cell; when a different cell has already become the target it leaves
the stream unchanged, so no element's `editingCell` stream sees any change. -/
theorem doneEditingCell_spec (e : DomChain) (ins : List (Option NodeInfo)) :
    (currentlyEditing ins = closest (some e) cellClass →
        doneEditingCell e ins = ins ++ [none])
    ∧ (currentlyEditing ins ≠ closest (some e) cellClass →
        doneEditingCell e ins = ins ∧
          ∀ e2 : DomChain,
            editingCellList e2 (doneEditingCell e ins) = editingCellList e2 ins) := by
  constructor
  · intro h
    rw [doneEditingCell, if_pos h]
  · intro h
    rw [doneEditingCell, if_neg h]
    exact ⟨rfl, fun _ => rfl⟩

/-- Claim C5 witness: with cell B the current target, `doneEditingCell` on an
element of cell A leaves the `editing` stream unchanged. -/
theorem doneEditingCell_spec_witness :
    doneEditingCell eInCellAW [some cellBW] = [some cellBW] :=
  ((doneEditingCell_spec eInCellAW [some cellBW]).2 (by decide)).1

theorem stepEditDir_inv (ht : Bool) (s : EditDirState) (b : Bool)
    (h1 : s.focusTrapCount = s.overlayCount) (h2 : s.overlayCount ≤ 1) :
    (stepEditDir ht s b).focusTrapCount = (stepEditDir ht s b).overlayCount ∧
      (stepEditDir ht s b).overlayCount ≤ 1 := by
  unfold stepEditDir
  by_cases hb : (b && ht) = true
  · rw [if_pos hb]
    by_cases h0 : s.overlayCount = 0
    · simp [h0, h1]
    · simp [h0, h1, h2]
  · rw [if_neg hb]
    by_cases h0 : s.overlayCount ≠ 0
    · simp [h0, h1, h2]
    · simp [h0, h1, h2]

theorem runEditDir_inv (ht : Bool) (ins : List Bool) :
    ∀ s : EditDirState, s.focusTrapCount = s.overlayCount → s.overlayCount ≤ 1 →
      (ins.foldl (stepEditDir ht) s).focusTrapCount =
          (ins.foldl (stepEditDir ht) s).overlayCount ∧
        (ins.foldl (stepEditDir ht) s).overlayCount ≤ 1 := by
  induction ins with
  | nil => intro s h1 h2; exact ⟨h1, h2⟩
  | cons b ins ih =>
    intro s h1 h2
    have hs := stepEditDir_inv ht s b h1 h2
    exact ih (stepEditDir ht s b) hs.1 hs.2

/-- Claim C3: across any sequence of `editingCell` emissions, a cell directive
constructs its overlay and its focus trap at most once; and a further `true`
emission while the overlay already exists only re-attaches (state change
limited to `attached := true`), constructing nothing new. -/
theorem cdkInlineEdit_overlay_once (ht : Bool) (ins : List Bool) :
    (runEditDir ht ins).overlayCount ≤ 1
    ∧ (runEditDir ht ins).focusTrapCount ≤ 1
    ∧ ((runEditDir true ins).overlayCount = 1 →
        stepEditDir true (runEditDir true ins) true =
          { runEditDir true ins with attached := true }) := by
  have h := runEditDir_inv ht ins initEditDir rfl (by simp [initEditDir])
  refine ⟨h.2, h.1 ▸ h.2, ?_⟩
  intro h1
  have h1' : (runEditDir true ins).overlayCount ≠ 0 := by rw [h1]; simp
  simp [stepEditDir, h1']

/-- Claim C3 witness: after an open, a second `true` emission only re-attaches. -/
theorem cdkInlineEdit_overlay_once_witness :
    stepEditDir true (runEditDir true [true]) true =
      { runEditDir true [true] with attached := true } :=
  (cdkInlineEdit_overlay_once true [true]).2.2 (by decide)

/-- Claim C6 counterexample: open the editor on a form whose value is `0`,
type `1` then `2`, then press Escape.  The editor closes (`editing` gets
`null`), but the form's value is still `2` — not the open-time value `0`, and
not even the snapshot (`1`, taken at the first change): `onEscape` calls
`close(true)`, which never invokes `reset()`. -/
theorem escape_no_revert_cex :
    runForm ⟨some 0, false, none, []⟩
        [FormEvent.valueChange (some 1), FormEvent.valueChange (some 2),
          FormEvent.escape] =
      ⟨some 2, true, some 1, [none]⟩
    ∧ ((⟨some 2, true, some 1, [none]⟩ : FormModel).formValue ≠ some 0) := by
  refine ⟨by decide, by decide⟩

/-- Claim C6 as amended: an Escape key-up closes the editor by emitting `null`
on the `editing` stream and leaves the form's values exactly as typed (no
revert happens on Escape); a subsequent `reset()` restores the revert
snapshot, which is the form value recorded at the first value change after
open, not the open-time value. -/
theorem escape_closes_without_revert (s : FormModel) (evs : List FormEvent) :
    runForm s (evs ++ [FormEvent.escape]) =
      { runForm s evs with editingLog := (runForm s evs).editingLog ++ [none] }
    ∧ (runForm s (evs ++ [FormEvent.escape])).formValue = (runForm s evs).formValue
    ∧ (runForm s (evs ++ [FormEvent.escape, FormEvent.reset])).formValue =
        (runForm s evs).revertFormValue := by
  refine ⟨?_, ?_, ?_⟩ <;>
    simp [runForm, List.foldl_append, stepForm, onEscapeControl, closeEdit, resetForm]

/-- Claim C9: a click on the explicit open control pushes the control's
enclosing `cdk-cell` element onto the shared `editing` stream and stops the
event's propagation, so the document-level click-out handler contributes no
emission: the click's net effect on `editing` is the single open emission,
for every click-out policy and click target. -/
theorem open_click_spec (element : DomChain) (behavior : ClickOutBehavior)
    (target : Option DomChain) :
    dispatchOpenClick element behavior target = [closest (some element) cellClass]
    ∧ (openInlineEdit element).stopped = true := by
  exact ⟨rfl, rfl⟩

theorem scheduleTask_executed (t : Nat) (s : SchedulerState) :
    (scheduleTask t s).executed = s.executed := by
  unfold scheduleTask createScheduleIfNeeded
  by_cases h : s.currentSchedule.isSome <;> simp [h]

theorem scheduleTask_microtasks (t : Nat) (s : SchedulerState) :
    (scheduleTask t s).microtasks = s.microtasks ++ [t] := by
  unfold scheduleTask createScheduleIfNeeded
  by_cases h : s.currentSchedule.isSome <;> simp [h]

theorem runScheduler_tasks_aux (ops : List SchedulerOp) :
    ∀ s : SchedulerState,
      (ops.foldl stepScheduler s).executed ++ (ops.foldl stepScheduler s).microtasks =
        s.executed ++ s.microtasks ++ scheduledTasks ops := by
  induction ops with
  | nil => intro s; simp [scheduledTasks]
  | cons op ops ih =>
    intro s
    cases op with
    | schedule t =>
      rw [List.foldl_cons]
      have := ih (stepScheduler s (SchedulerOp.schedule t))
      rw [this]
      simp [stepScheduler, scheduleTask_executed, scheduleTask_microtasks, scheduledTasks]
    | drain =>
      rw [List.foldl_cons]
      have := ih (stepScheduler s SchedulerOp.drain)
      rw [this]
      simp [stepScheduler, drainMicrotasks, scheduledTasks]

theorem scheduleTask_nextId (t : Nat) (s : SchedulerState) :
    (scheduleTask t s).nextScheduleId =
      if s.currentSchedule.isSome then s.nextScheduleId else s.nextScheduleId + 1 := by
  unfold scheduleTask createScheduleIfNeeded
  by_cases h : s.currentSchedule.isSome <;> simp [h]

theorem scheduleTask_current (t : Nat) (s : SchedulerState) :
    (scheduleTask t s).currentSchedule =
      if s.currentSchedule.isSome then s.currentSchedule
      else some s.nextScheduleId := by
  unfold scheduleTask createScheduleIfNeeded
  by_cases h : s.currentSchedule.isSome <;> simp [h]

theorem runScheduler_nextId_aux (ops : List SchedulerOp) :
    ∀ s : SchedulerState, s.nextScheduleId ≤ 1 →
      (s.currentSchedule = none → s.nextScheduleId = 0) →
      (ops.foldl stepScheduler s).nextScheduleId ≤ 1 := by
  induction ops with
  | nil => intro s h1 _; exact h1
  | cons op ops ih =>
    intro s h1 h2
    cases op with
    | schedule t =>
      rw [List.foldl_cons]
      by_cases h : s.currentSchedule.isSome
      · apply ih
        · show (scheduleTask t s).nextScheduleId ≤ 1
          rw [scheduleTask_nextId, if_pos h]
          exact h1
        · intro hn
          rw [show (stepScheduler s (SchedulerOp.schedule t)) = scheduleTask t s from rfl,
            scheduleTask_current, if_pos h] at hn
          rw [hn] at h
          simp at h
      · have hz : s.nextScheduleId = 0 := h2 (Option.not_isSome_iff_eq_none.mp h)
        apply ih
        · show (scheduleTask t s).nextScheduleId ≤ 1
          rw [scheduleTask_nextId, if_neg h, hz]
        · intro hn
          rw [show (stepScheduler s (SchedulerOp.schedule t)) = scheduleTask t s from rfl,
            scheduleTask_current, if_neg h] at hn
          simp at hn
    | drain =>
      rw [List.foldl_cons]
      exact ih _ h1 h2

/-- Claim C10: every task handed to `CoalescedStyleScheduler.schedule` runs
exactly once and only asynchronously (the synchronous `schedule` call executes
nothing); once the microtask queue drains, the executed tasks are precisely
the scheduled ones in scheduling order; and at most one schedule observable is
ever created, so all tasks of a window share a single schedule. -/
theorem coalescedScheduler_spec (ops : List SchedulerOp) :
    (drainMicrotasks (runScheduler ops)).executed = scheduledTasks ops
    ∧ (drainMicrotasks (runScheduler ops)).microtasks = []
    ∧ (∀ (t : Nat) (s : SchedulerState), (scheduleTask t s).executed = s.executed)
    ∧ (runScheduler ops).nextScheduleId ≤ 1 := by
  refine ⟨?_, rfl, scheduleTask_executed, ?_⟩
  · show (runScheduler ops).executed ++ (runScheduler ops).microtasks = scheduledTasks ops
    have := runScheduler_tasks_aux ops initScheduler
    simpa [runScheduler, initScheduler] using this
  · exact runScheduler_nextId_aux ops initScheduler (by decide) (fun _ => rfl)

theorem emitDistinct_out_mem (t : Nat) (b : Bool) (s : HoverPipe) (p : Nat × Bool)
    (hp : p ∈ (emitDistinct t b s).out) : p ∈ s.out ∨ p = (t, b) := by
  unfold emitDistinct at hp
  by_cases h : s.lastOut = some b
  · rw [if_pos h] at hp; exact Or.inl hp
  · rw [if_neg h] at hp
    simp only [List.mem_append, List.mem_singleton] at hp
    exact hp

theorem emitDistinct_window (t : Nat) (b : Bool) (s : HoverPipe) :
    (emitDistinct t b s).window = s.window := by
  unfold emitDistinct
  by_cases h : s.lastOut = some b <;> simp [h]

theorem fireTimer_prov (Q : Bool → Prop) (t : Nat) (s : HoverPipe)
    (hout : ∀ p ∈ s.out, Q p.2)
    (hwin : ∀ b, windowLatest s.window = some b → Q b) :
    (∀ p ∈ (fireTimerIfDue t s).out, Q p.2) ∧
      (∀ b, windowLatest (fireTimerIfDue t s).window = some b → Q b) := by
  cases hw : s.window with
  | closed =>
    constructor
    · intro p hp
      simp only [fireTimerIfDue, hw] at hp
      exact hout p hp
    · intro b hb
      simp only [fireTimerIfDue, hw] at hb
      exact absurd hb (by simp [windowLatest])
  | waitMove latest =>
    constructor
    · intro p hp
      simp only [fireTimerIfDue, hw] at hp
      exact hout p hp
    · intro b hb
      simp only [fireTimerIfDue, hw] at hb
      rw [show windowLatest (AuditWindow.waitMove latest) = some latest from rfl] at hb
      cases Option.some.inj hb
      exact hwin latest (by rw [hw]; rfl)
  | waitTimer latest deadline =>
    have hlat : Q latest := hwin latest (by rw [hw]; rfl)
    by_cases hdue : deadline ≤ t
    · constructor
      · intro p hp
        simp only [fireTimerIfDue, hw, if_pos hdue] at hp
        rcases emitDistinct_out_mem _ _ _ _ hp with h | h
        · exact hout p h
        · rw [h]; exact hlat
      · intro b hb
        simp only [fireTimerIfDue, hw, if_pos hdue, emitDistinct_window] at hb
        simp [windowLatest] at hb
    · constructor
      · intro p hp
        simp only [fireTimerIfDue, hw, if_neg hdue] at hp
        exact hout p hp
      · intro b hb
        simp only [fireTimerIfDue, hw, if_neg hdue] at hb
        rw [show windowLatest (AuditWindow.waitTimer latest deadline) = some latest
          from rfl] at hb
        cases Option.some.inj hb
        exact hlat

theorem auditSource_out (t : Nat) (b : Bool) (s : HoverPipe) :
    (auditSource t b s).out = s.out := by
  cases hw : s.window with
  | closed =>
    simp only [auditSource, hw]
    by_cases hb : b = true <;> simp [hb]
  | waitMove latest => simp [auditSource, hw]
  | waitTimer latest deadline => simp [auditSource, hw]

theorem auditSource_windowLatest (t : Nat) (b : Bool) (s : HoverPipe) :
    windowLatest (auditSource t b s).window = some b := by
  cases hw : s.window with
  | closed =>
    simp only [auditSource, hw]
    by_cases hb : b = true <;> simp [hb, windowLatest]
  | waitMove latest => simp [auditSource, hw, windowLatest]
  | waitTimer latest deadline => simp [auditSource, hw, windowLatest]

theorem stepHover_hover (ud : Bool) (row : Option NodeInfo) (s : HoverPipe)
    (t : Nat) (v : Option NodeInfo) :
    stepHover ud row s (HoverEvent.hover t v) =
      (if ud && decide ((fireTimerIfDue t s).lastHover = some v) then fireTimerIfDue t s
        else auditSource t (hoverMatch row v)
          { fireTimerIfDue t s with lastHover := some v }) := rfl

theorem stepHover_move_eq (ud : Bool) (row : Option NodeInfo) (s : HoverPipe)
    (t : Nat) (v : Option NodeInfo) :
    stepHover ud row s (HoverEvent.move t v) =
      (match (fireTimerIfDue t s).window with
        | AuditWindow.waitMove latest =>
            if hoverMatch row v then
              emitDistinct t latest { fireTimerIfDue t s with window := AuditWindow.closed }
            else fireTimerIfDue t s
        | _ => fireTimerIfDue t s) := rfl

theorem stepHover_prov (Q : Bool → Prop) (ud : Bool) (row : Option NodeInfo)
    (s : HoverPipe) (e : HoverEvent)
    (hout : ∀ p ∈ s.out, Q p.2)
    (hwin : ∀ b, windowLatest s.window = some b → Q b)
    (hv : ∀ v ∈ hoverValues [e], Q (hoverMatch row v)) :
    (∀ p ∈ (stepHover ud row s e).out, Q p.2) ∧
      (∀ b, windowLatest (stepHover ud row s e).window = some b → Q b) := by
  cases e with
  | hover t v =>
    have hfire := fireTimer_prov Q t s hout hwin
    have hqv : Q (hoverMatch row v) := hv v (by simp [hoverValues])
    rw [stepHover_hover]
    by_cases hskip : (ud && decide ((fireTimerIfDue t s).lastHover = some v)) = true
    · rw [if_pos hskip]
      exact hfire
    · rw [if_neg hskip]
      constructor
      · intro p hp
        rw [auditSource_out] at hp
        exact hfire.1 p hp
      · intro b hb
        rw [auditSource_windowLatest] at hb
        cases Option.some.inj hb
        exact hqv
  | move t v =>
    have hfire := fireTimer_prov Q t s hout hwin
    rw [stepHover_move_eq]
    split
    · rename_i latest hsplit
      have hlat : Q latest := hfire.2 latest (by rw [hsplit]; rfl)
      by_cases hm : hoverMatch row v = true
      · rw [if_pos hm]
        constructor
        · intro p hp
          rcases emitDistinct_out_mem _ _ _ _ hp with h | h
          · exact hfire.1 p h
          · rw [h]; exact hlat
        · intro b hb
          rw [emitDistinct_window] at hb
          simp [windowLatest] at hb
      · rw [if_neg hm]
        exact hfire
    · exact hfire

theorem flushHover_prov (Q : Bool → Prop) (s : HoverPipe)
    (hout : ∀ p ∈ s.out, Q p.2)
    (hwin : ∀ b, windowLatest s.window = some b → Q b) :
    ∀ p ∈ (flushHover s).out, Q p.2 := by
  cases hw : s.window with
  | closed =>
    intro p hp
    simp only [flushHover, hw] at hp
    exact hout p hp
  | waitMove latest =>
    intro p hp
    simp only [flushHover, hw] at hp
    exact hout p hp
  | waitTimer latest deadline =>
    have hlat : Q latest := hwin latest (by rw [hw]; rfl)
    intro p hp
    simp only [flushHover, hw] at hp
    rcases emitDistinct_out_mem _ _ _ _ hp with h | h
    · exact hout p h
    · rw [h]; exact hlat

theorem runHover_prov_aux (Q : Bool → Prop) (ud : Bool) (row : Option NodeInfo) :
    ∀ (evs : List HoverEvent) (s : HoverPipe),
      (∀ p ∈ s.out, Q p.2) →
      (∀ b, windowLatest s.window = some b → Q b) →
      (∀ v ∈ hoverValues evs, Q (hoverMatch row v)) →
      ∀ p ∈ (flushHover (evs.foldl (stepHover ud row) s)).out, Q p.2 := by
  intro evs
  induction evs with
  | nil =>
    intro s hout hwin _
    exact flushHover_prov Q s hout hwin
  | cons e evs ih =>
    intro s hout hwin hv
    rw [List.foldl_cons]
    have hstep := stepHover_prov Q ud row s e hout hwin (by
      intro v hv1
      apply hv
      cases e with
      | hover t w =>
        simp only [hoverValues, List.filterMap_cons] at hv1 ⊢
        simp only [List.mem_cons] at hv1 ⊢
        rcases hv1 with h | h
        · exact Or.inl h
        · simp [hoverValues] at h
      | move t w =>
        simp only [hoverValues, List.filterMap_cons] at hv1 ⊢
        simp [hoverValues] at hv1)
    exact ih (stepHover ud row s e) hstep.1 hstep.2 (by
      intro v hv1
      apply hv
      cases e with
      | hover t w =>
        simp only [hoverValues, List.filterMap_cons]
        exact List.mem_cons_of_mem _ hv1
      | move t w =>
        simpa [hoverValues] using hv1)

/-- Claim C4 counterexample: hover row A at 0ms, mouse-move over row A at 5ms
(row A's pipeline emits `true` at 5ms), then hover row B at 10ms.  Row B's
pipeline, whose audit window is a timer opened at 0ms, emits `true` at 30ms,
while row A's `false` — audited by a timer opened at 10ms — is only emitted at
40ms.  At 35ms both rows' streams read `true` (not at most one hovered row),
and row A's `false` (40ms) is observed strictly after row B's `true` (30ms). -/
theorem hover_order_cex :
    closest (some e1W) rowClass = some rowAW
    ∧ closest (some e2W) rowClass = some rowBW
    ∧ rowAW ≠ rowBW
    ∧ (runHover true (some rowAW) evs4W).out = [(5, true), (40, false)]
    ∧ (runHover true (some rowBW) evs4W).out = [(30, true)]
    ∧ valueAt 35 (runHover true (some rowAW) evs4W).out = some true
    ∧ valueAt 35 (runHover true (some rowBW) evs4W).out = some true := by
  decide

/-- Claim C4 as amended: a single `hovering` emission never maps to `true`
for two pipelines over distinct rows (at most one row matches the raw hover
state at any instant), and every value delivered by a `hoveringOnRow` pipeline
is the match indicator of some actually received `hovering` value; however the
audit stage delays delivery, so the previously hovered row's `false` may be
observed strictly after the newly hovered row's `true`, and the two delivered
streams may transiently both read `true`. -/
theorem hover_amended (r1 r2 : Option NodeInfo) (hne : r1 ≠ r2) :
    (∀ v : Option NodeInfo, ¬(hoverMatch r1 v = true ∧ hoverMatch r2 v = true))
    ∧ ∀ (ud : Bool) (evs : List HoverEvent) (p : Nat × Bool),
        p ∈ (runHover ud r1 evs).out →
          ∃ v ∈ hoverValues evs, p.2 = hoverMatch r1 v := by
  constructor
  · rintro v ⟨h1, h2⟩
    exact hne ((of_decide_eq_true h1).symm.trans (of_decide_eq_true h2))
  · intro ud evs p hp
    exact runHover_prov_aux (fun b => ∃ v ∈ hoverValues evs, b = hoverMatch r1 v)
      ud r1 evs initHoverPipe
      (by intro p hp1; exact absurd hp1 (by simp [initHoverPipe]))
      (by intro b hb; exact absurd hb (by simp [initHoverPipe, windowLatest]))
      (fun v hv => ⟨v, hv, rfl⟩) p hp

/-- Claim C4 witness: rows A and B are distinct, so a hover value matching row
A does not match row B. -/
theorem hover_amended_witness :
    ¬(hoverMatch (some rowAW) (some rowAW) = true ∧
      hoverMatch (some rowBW) (some rowAW) = true) :=
  (hover_amended (some rowAW) (some rowBW) (by decide)).1 (some rowAW)

/-- Claim C8 counterexample: with the element's row hovered first, the
pipeline's post-deduplication stream is `true` at 3ms then the genuine
hover-exit `false` at 40ms; the `index > 1` filter drops that `false` (it sits
at index 1), so the delivered stream contains no `false` at all — the first
genuine hover-exit transition is swallowed. -/
theorem hover_first_false_cex :
    (runHover false (some rowAW) evs8W).out = [(3, true), (40, false)]
    ∧ hoveringOnRowLater (some rowAW) evs8W = [(3, true)]
    ∧ false ∉ (hoveringOnRowLater (some rowAW) evs8W).map (fun p => p.2) := by
  decide

theorem hoverIndexFilter_ge_two (xs : List (Nat × Bool)) :
    ∀ i : Nat, 2 ≤ i → hoverIndexFilter i xs = xs := by
  induction xs with
  | nil => intro i _; rfl
  | cons p rest ih =>
    intro i hi
    have h1 : (i > 1) = True := eq_true (by omega)
    simp [hoverIndexFilter, h1, ih (i + 1) (by omega)]

/-- Claim C8 as amended: the index-based exception drops any `false` among the
first two post-deduplication emissions and delivers everything from the third
emission on.  So when the pipeline's first emission is the initial `false`,
the first genuine hover-exit (arriving at index ≥ 2) is delivered; but a
hover-exit arriving at index 1 — immediately after an initial `true` — is
swallowed. -/
theorem hover_first_false_amended (row : Option NodeInfo) (evs : List HoverEvent) :
    hoveringOnRowLater row evs =
      ((runHover false row evs).out.take 2).filter (fun p => p.2) ++
        (runHover false row evs).out.drop 2 := by
  rw [hoveringOnRowLater]
  generalize (runHover false row evs).out = xs
  match xs with
  | [] => rfl
  | [a] =>
    rcases a with ⟨ta, ba⟩
    cases ba <;> simp [hoverIndexFilter]
  | a :: b :: rest =>
    rcases a with ⟨ta, ba⟩
    rcases b with ⟨tb, bb⟩
    cases ba <;> cases bb <;>
      simp [hoverIndexFilter, hoverIndexFilter_ge_two rest 2 (by omega)]

/-- Claim C7 counterexample: for a concrete element enclosed in neither a
`cdk-cell` nor a `cdk-row`, the ancestor lookup yields `null` — yet matching
is not suppressed: `null === null` makes `editingCell` emit `true` when the
`editing` stream emits `null`, and `hoveringOnRow` emit `true` after a
row-less hover/mouse-move pair. -/
theorem null_identity_cex :
    closest (some eFreeW) cellClass = none
    ∧ closest (some eFreeW) rowClass = none
    ∧ editingCellList eFreeW [none] = [true]
    ∧ (runHover true (closest (some eFreeW) rowClass)
        [HoverEvent.hover 0 none, HoverEvent.move 5 none]).out = [(5, true)] := by
  decide

/-- Claim C7 as amended: for an element not enclosed in a cell, `closest`
yields `null`, and `editingCell` then tracks the `null` target: it can deliver
`true` only when the `editing` stream actually emitted `null`, never while an
actual cell is the target (and symmetrically `hoverMatch` against a `null`
row holds exactly for `null` hover values); an open trigger on a cell whose
directive has no template configured is a silent no-op — no overlay and no
focus trap are ever constructed. -/
theorem null_identity_amended (e : DomChain)
    (h : closest (some e) cellClass = none) :
    (∀ ins : List (Option NodeInfo), true ∈ editingCellList e ins → none ∈ ins)
    ∧ (∀ v : Option NodeInfo, hoverMatch none v = true ↔ v = none)
    ∧ ∀ ins : List Bool, runEditDir false ins = initEditDir := by
  refine ⟨?_, ?_, ?_⟩
  · intro ins ht
    have hsub : true ∈ ins.map (fun v => decide (v = closest (some e) cellClass)) :=
      (distinctFrom_sublist none _).subset ht
    rcases List.mem_map.mp hsub with ⟨v, hv, hfv⟩
    rw [h] at hfv
    rw [← of_decide_eq_true hfv]
    exact hv
  · intro v
    unfold hoverMatch
    exact decide_eq_true_iff
  · intro ins
    rw [runEditDir]
    induction ins with
    | nil => rfl
    | cons b ins ih =>
      rw [List.foldl_cons,
        show stepEditDir false initEditDir b = initEditDir by
          simp [stepEditDir, initEditDir]]
      exact ih

/-- Claim C7 witness: for the concrete cell-less element, no overlay is ever
constructed when no template is configured. -/
theorem null_identity_witness : runEditDir false [true] = initEditDir :=
  (null_identity_amended eFreeW (by decide)).2.2 [true]
